import Mathlib

/-!
Verification of the EchoMind personalization memory engine
(src/qdrant_manager.py) against its specification.

The Python module is shallowly embedded: the module-level mutable state
(the Qdrant collection list, the stored points of the echomind_phrases
collection, and the module-level point counter dictionary) becomes an
explicit ManagerState threaded through the operations.  The external
collaborators are parameters:
  - the Gemini embedding call (generate_embedding) is an
    Option (List Rat) argument: none models an exception caught inside
    generate_embedding (which returns None), some v a returned vector;
  - the similarity score computed by the qdrant client is an abstract
    function score : List Rat -> List Rat -> Rat (the client library is
    outside this repository; the code only relies on the client returning
    filtered points in descending score order);
  - Python's randomized builtin hash on (child_id, point_id) tuples is an
    abstract function h : String -> Nat -> Int;
  - underlying client I/O failure is injected through a clientFails flag
    (true models the client call raising an exception at that call site);
  - datetime.now().isoformat() is a now : String argument.
Vectors are modelled over Rat (the code never computes with the float
entries itself; it only builds, stores and forwards them).
-/

namespace EchoMind

/-- EMBEDDING_DIM constant from qdrant_manager.py (Gemini embedding dimension). -/
def EMBEDDING_DIM : Nat := 768

/-- QDRANT_COLLECTION constant from qdrant_manager.py. -/
def QDRANT_COLLECTION : String := "echomind_phrases"

/-- Distance metrics of qdrant_client.models.Distance (the ones relevant here). -/
inductive QdrantDistance where
  | cosine
  | dot
  | euclid
deriving DecidableEq, Repr

/-- VectorParams of qdrant_client.models: collection schema (size, distance). -/
structure VectorParams where
  size : Nat
  distance : QdrantDistance
deriving DecidableEq, Repr

/-- Payload dictionary attached to each stored point (store_phrase lines
104-113).  The phrase field is an Option so that states whose points lack a
phrase entry (payload.get returning None on the read side) are expressible. -/
structure Payload where
  child_id : String
  category : String
  phrase : Option String
  timestamp : String
  time_of_day : String
  day_of_week : String
  location : String
  context_str : String
deriving DecidableEq, Repr

/-- A qdrant point: id (the Python value hash((child_id, point_id)) percent
2 to the 31, an integer in the range zero to 2 to the 31), vector, payload. -/
structure Point where
  id : Int
  vector : List Rat
  payload : Payload
deriving DecidableEq, Repr

/-- The module-level mutable state of qdrant_manager.py: the client's
collection list, the points of the echomind_phrases collection, and the
process-wide point counter dictionary, modelled as insertion-ordered
association lists, as Python dictionaries are. -/
structure ManagerState where
  collections : List (String × VectorParams)
  points : List Point
  pointCounter : List (String × Nat)
deriving DecidableEq, Repr

/-- Errors of the spec's taxonomy that the operations could surface.  The
result types use Except with these so that raising versus returning is
expressible; the embedded code shows which branch the source actually takes. -/
inductive QdrantError where
  | schemaMismatch
  | storeUnavailable
deriving DecidableEq, Repr

/-- Context dictionary passed by the caller; context.get(key, "unknown")
is modelled by Option.getD "unknown" on these fields. -/
structure PhraseContext where
  time_of_day : Option String
  day_of_week : Option String
  location : Option String
deriving DecidableEq, Repr

/-- Context string built on the insert path, transcribed from store_phrase
lines 89-94 of qdrant_manager.py. -/
def build_context_str_store (category : String) (context : PhraseContext) : String :=
  "Category: " ++ category ++ ". " ++
  "Time of day: " ++ (context.time_of_day.getD "unknown") ++ ". " ++
  "Day: " ++ (context.day_of_week.getD "unknown") ++ ". " ++
  "Location: " ++ (context.location.getD "unknown")

/-- Context string built on the retrieval path, transcribed from
get_similar_contexts lines 149-154 of qdrant_manager.py. -/
def build_context_str_retrieve (category : String) (context : PhraseContext) : String :=
  "Category: " ++ category ++ ". " ++
  "Time of day: " ++ (context.time_of_day.getD "unknown") ++ ". " ++
  "Day: " ++ (context.day_of_week.getD "unknown") ++ ". " ++
  "Location: " ++ (context.location.getD "unknown")

/-- Python truthiness of the generate_embedding result: None and the empty
list are both falsy at the .if not embedding. checks. -/
def embTruthy : Option (List Rat) → Option (List Rat)
  | none => none
  | some [] => none
  | some v => some v

/-- Bump of a Python dict used as a counter: existing key keeps its position
and is incremented, a fresh key is appended with count 1 (insertion order). -/
def bumpCount (m : List (String × Nat)) (p : String) : List (String × Nat) :=
  if m.any (fun kv => kv.1 = p) then
    m.map (fun kv => if kv.1 = p then (kv.1, kv.2 + 1) else kv)
  else
    m ++ [(p, 1)]

/-- The function _get_next_point_id (lines 35-40): initialize the child's
counter to 0 if absent, increment, return the new value; the mutated
dictionary is returned alongside. -/
def get_next_point_id (child_id : String) (counter : List (String × Nat)) :
    Nat × List (String × Nat) :=
  (((bumpCount counter child_id).lookup child_id).getD 1, bumpCount counter child_id)

/-- The point id derivation of store_phrase line 118:
hash((child_id, point_id)) percent 2 to the 31, for the process's tuple-hash
function h (Python's builtin hash is per-process randomized, so it is a
parameter of the model).  Int.emod with a positive modulus is non-negative,
matching Python's percent operator. -/
def pointPid (h : String → Nat → Int) (child_id : String) (seq : Nat) : Int :=
  h child_id seq % (2 ^ 31 : Int)

/-- Qdrant upsert of a single point: a point with the same id is replaced in
place, otherwise the point is appended. -/
def upsertPoint (p : Point) (pts : List Point) : List Point :=
  if pts.any (fun q => q.id = p.id) then
    pts.map (fun q => if q.id = p.id then p else q)
  else
    pts ++ [p]

/-- Stable insertion (descending by key) used to model the stable descending
orderings in play: Python's sorted(..., reverse := true) and the qdrant
client's score-descending result order.  An element is inserted before the
first element whose key is not larger, so earlier elements precede later
ones when keys are equal. -/
def insertDescBy {α β : Type} [LinearOrder β] (key : α → β) (x : α) :
    List α → List α
  | [] => [x]
  | y :: ys => if key y ≤ key x then x :: y :: ys else y :: insertDescBy key x ys

/-- Stable descending sort by a key (foldr of insertDescBy). -/
def sortDescBy {α β : Type} [LinearOrder β] (key : α → β) (l : List α) : List α :=
  l.foldr (insertDescBy key) []

/-- Model of client.search: the points passing the filter, each paired with
its score against the query vector, in descending score order, truncated to
the limit.  The score function is abstract: the library computes it, the
embedded code never inspects it beyond this ordering. -/
def clientSearch (score : List Rat → List Rat → Rat) (queryVector : List Rat)
    (filt : Point → Bool) (limit : Nat) (pts : List Point) : List (Point × Rat) :=
  (sortDescBy (fun pr => pr.2)
    ((pts.filter filt).map (fun p => (p, score queryVector p.vector)))).take limit

/-- The function init_qdrant (lines 43-64): if no collection with the name
QDRANT_COLLECTION exists, create one with (EMBEDDING_DIM, cosine); otherwise
do nothing.  Only the collection NAME is examined; an existing collection's
size and distance are never compared against the requested ones, and no
error is ever produced on the non-I/O path. -/
def init_qdrant (s : ManagerState) : Except QdrantError ManagerState :=
  if s.collections.any (fun c => c.1 = QDRANT_COLLECTION) then
    .ok s
  else
    .ok { s with collections :=
            s.collections ++ [(QDRANT_COLLECTION, ⟨EMBEDDING_DIM, .cosine⟩)] }

/-- The function store_phrase (lines 80-133).  The whole body is inside
try/except Exception which prints and returns False, so the function never
raises: every branch is Except.ok.  The clientFails flag injects an
exception at the client.upsert call; note the counter mutation performed by
_get_next_point_id before the upsert survives the caught exception. -/
def store_phrase (h : String → Nat → Int) (clientFails : Bool)
    (embedResult : Option (List Rat)) (now : String)
    (child_id category phrase : String) (context : PhraseContext)
    (s : ManagerState) : Except QdrantError (ManagerState × Bool) :=
  let context_str := build_context_str_store category context
  let embedding :=
    match embTruthy embedResult with
    | none => List.replicate EMBEDDING_DIM (0 : Rat)
    | some v => v
  let payload : Payload :=
    { child_id := child_id
      category := category
      phrase := some phrase
      timestamp := now
      time_of_day := context.time_of_day.getD "unknown"
      day_of_week := context.day_of_week.getD "unknown"
      location := context.location.getD "unknown"
      context_str := context_str }
  let next := get_next_point_id child_id s.pointCounter
  let point : Point := { id := pointPid h child_id next.1, vector := embedding, payload := payload }
  if clientFails then
    .ok ({ s with pointCounter := next.2 }, false)
  else
    .ok ({ s with pointCounter := next.2, points := upsertPoint point s.points }, true)

/-- A formatted similarity hit as returned by get_similar_contexts
(lines 183-189): phrase is payload.get("phrase"), hence an Option. -/
structure SimilarHit where
  phrase : Option String
  category : String
  time_of_day : String
  similarity_score : Rat
deriving DecidableEq, Repr

/-- The function get_similar_contexts (lines 136-196), instrumented: the
second component records whether the client search was invoked.  Build the
context string, embed it; a falsy embedding returns ([], false) before any
store access; otherwise search filtered to the child's id (a raised client
exception is caught by the outer except and yields []), and format the hits. -/
def get_similar_contexts_run (clientFails : Bool)
    (score : List Rat → List Rat → Rat) (embedResult : Option (List Rat))
    (child_id category : String) (context : PhraseContext) (limit : Nat)
    (s : ManagerState) : List SimilarHit × Bool :=
  let _context_str := build_context_str_retrieve category context
  match embTruthy embedResult with
  | none => ([], false)
  | some embedding =>
    if clientFails then ([], true)
    else
      let hits := clientSearch score embedding
        (fun p => decide (p.payload.child_id = child_id)) limit s.points
      (hits.map (fun hit =>
        { phrase := hit.1.payload.phrase
          category := hit.1.payload.category
          time_of_day := hit.1.payload.time_of_day
          similarity_score := hit.2 }), true)

/-- The function get_similar_contexts, forgetting the instrumentation. -/
def get_similar_contexts (clientFails : Bool)
    (score : List Rat → List Rat → Rat) (embedResult : Option (List Rat))
    (child_id category : String) (context : PhraseContext) (limit : Nat)
    (s : ManagerState) : List SimilarHit :=
  (get_similar_contexts_run clientFails score embedResult child_id category
    context limit s).1

/-- Phrase counting loop of get_top_phrases_in_category (lines 228-232):
phrase := hit.payload.get("phrase", ""), skipped when falsy (missing or
empty), otherwise counted in the insertion-ordered dict. -/
def countPhrases (hits : List Payload) : List (String × Nat) :=
  hits.foldl (fun acc hit =>
    let phrase := hit.phrase.getD ""
    if phrase ≠ "" then bumpCount acc phrase else acc) []

/-- Aggregation core of get_top_phrases_in_category (lines 227-236): count,
sort the dict items descending by count (Python's sorted is stable, so ties
keep dict insertion order, which is first-seen order), truncate, project. -/
def get_top_core (hits : List Payload) (limit : Nat) : List String :=
  ((sortDescBy (fun kv => kv.2) (countPhrases hits)).take limit).map (fun kv => kv.1)

/-- The truthy phrase entries of a hit list, in fetch order: the sequence of
values the counting loop of get_top_phrases_in_category actually counts. -/
def truthyPhrases (hits : List Payload) : List String :=
  hits.filterMap (fun hit =>
    if hit.phrase.getD "" ≠ "" then some (hit.phrase.getD "") else none)

/-- Counting loop restricted to an option-phrase list; countPhrases factors
through it (see countPhrases_eq_countOpt below). -/
def countOpt (l : List (Option String)) : List (String × Nat) :=
  l.foldl (fun acc op =>
    if op.getD "" ≠ "" then bumpCount acc (op.getD "") else acc) []

/-- Distinct elements of a list in order of first occurrence (the key order
of a Python counting dict built by insertion). -/
def firstSeen (l : List String) : List String :=
  l.foldl (fun acc p => if p ∈ acc then acc else acc ++ [p]) []

/-- Reference aggregation following the words of the spec (section 4.3 and
P4): count exact-string occurrences of each fetched phrase, sort the
distinct phrases descending by count with ties broken by first-seen order
among the fetched sample, truncate to the limit. -/
def spec_top_phrases (hits : List Payload) (limit : Nat) : List String :=
  (sortDescBy (fun p => (truthyPhrases hits).count p)
    (firstSeen (truthyPhrases hits))).take limit

/-- The function get_top_phrases_in_category (lines 199-242): search with
the all-zero query vector filtered to (child_id, category), fetching up to
limit * 5 points, then aggregate.  Any client exception is caught by the
outer except and yields []. -/
def get_top_phrases_in_category (clientFails : Bool)
    (score : List Rat → List Rat → Rat) (child_id category : String)
    (limit : Nat) (s : ManagerState) : List String :=
  if clientFails then []
  else
    let zero_vector := List.replicate EMBEDDING_DIM (0 : Rat)
    let hits := clientSearch score zero_vector
      (fun p => decide (p.payload.child_id = child_id ∧ p.payload.category = category))
      (limit * 5) s.points
    get_top_core (hits.map (fun pr => pr.1.payload)) limit

/-- The list comprehension of get_personalization_context line 265: the
phrases of the similarity hits whose phrase entry is truthy (present and
non-empty), kept in hit order, duplicates included. -/
def phrases_from_similar (similar : List SimilarHit) : List String :=
  similar.filterMap (fun hit =>
    match hit.phrase with
    | some p => if p ≠ "" then some p else none
    | none => none)

/-- The function get_personalization_context (lines 245-278), transcribed:
the similar-situations sentence joins the phrases of the similarity hits
that are truthy (present and non-empty), in hit order, with no
deduplication; then the frequent-phrases sentence; then the first-time
fallback when both are absent. -/
def get_personalization_context (clientFails : Bool)
    (score : List Rat → List Rat → Rat) (embedResult : Option (List Rat))
    (child_id category : String) (context : PhraseContext)
    (s : ManagerState) : String :=
  let similar := get_similar_contexts clientFails score embedResult child_id
    category context 3 s
  let top_phrases := get_top_phrases_in_category clientFails score child_id
    category 3 s
  let p1 : String :=
    if similar.isEmpty then "" else
      if (phrases_from_similar similar).isEmpty then "" else
        "In similar situations, this child has said: " ++
          String.intercalate ", " (phrases_from_similar similar) ++ ". "
  let p2 : String :=
    if top_phrases.isEmpty then p1 else
      p1 ++ "This child frequently uses these phrases in this category: " ++
        String.intercalate ", " top_phrases ++ ". "
  if p2 = "" then
    "This is the child's first time in this category or context. Suggest clear, simple phrases based on the category."
  else p2

/-! Concrete inputs used by witnesses and counterexamples. -/

/-- Context dictionary with none of the optional keys present. -/
def ctx0 : PhraseContext := ⟨none, none, none⟩

/-- A concrete score function (the embedded code never inspects scores
beyond their ordering, so a constant score is a legitimate instance). -/
def score0 : List Rat → List Rat → Rat := fun _ _ => 0

/-- A concrete tuple-hash instance. -/
def hash0 : String → Nat → Int := fun _ _ => 0

/-- A concrete payload for the child c carrying the phrase ph. -/
def samplePayload (c ph : String) : Payload :=
  { child_id := c, category := "cat", phrase := some ph, timestamp := "t"
    time_of_day := "tod", day_of_week := "dow", location := "loc"
    context_str := "cs" }

/-- A store state mixing records of two children. -/
def mixedState : ManagerState :=
  { collections := [], pointCounter := []
    points := [ ⟨1, [], samplePayload "u1" "hi"⟩
              , ⟨2, [], samplePayload "u2" "other"⟩
              , ⟨3, [], samplePayload "u1" "hi"⟩ ] }

/-- The hit that get_similar_contexts returns first on mixedState for child
u1 under score0. -/
def sampleHit : SimilarHit :=
  { phrase := some "hi", category := "cat", time_of_day := "tod"
    similarity_score := 0 }

/-- A state whose existing collection has a dimension and metric different
from the requested (EMBEDDING_DIM, cosine). -/
def mismatchState : ManagerState :=
  { collections := [(QDRANT_COLLECTION, ⟨512, .dot⟩)], points := [], pointCounter := [] }

/-- The empty manager state. -/
def emptyState : ManagerState := { collections := [], points := [], pointCounter := [] }

/-- Fetched records carrying the phrases a, a, b, a, c in that order (the
concrete sample of property P4). -/
def sampleHits5 : List Payload :=
  ["a", "a", "b", "a", "c"].map (fun p => samplePayload "u" p)

/-! Helper lemmas about the stable sort. -/

/-- Inserting with insertDescBy is a permutation of consing. -/
theorem insertDescBy_perm {α β : Type} [LinearOrder β] (key : α → β) (x : α) :
    ∀ l : List α, (insertDescBy key x l).Perm (x :: l)
  | [] => List.Perm.refl _
  | y :: ys => by
    unfold insertDescBy
    by_cases h : key y ≤ key x
    · simp [h]
    · simp only [h, if_false]
      exact ((insertDescBy_perm key x ys).cons y).trans (List.Perm.swap x y ys)

/-- The stable descending sort is a permutation of its input. -/
theorem sortDescBy_perm {α β : Type} [LinearOrder β] (key : α → β) :
    ∀ l : List α, (sortDescBy key l).Perm l
  | [] => List.Perm.refl _
  | x :: xs =>
    (insertDescBy_perm key x (sortDescBy key xs)).trans
      ((sortDescBy_perm key xs).cons x)

/-- Sorting a mapped list by a key is mapping the list sorted by the
composed key. -/
theorem insertDescBy_map {α γ β : Type} [LinearOrder β] (key : γ → β)
    (f : α → γ) (x : α) : ∀ l : List α,
    insertDescBy key (f x) (l.map f) = (insertDescBy (fun a => key (f a)) x l).map f
  | [] => rfl
  | y :: ys => by
    unfold insertDescBy
    by_cases h : key (f y) ≤ key (f x)
    · simp [h]
    · simp [h, insertDescBy_map key f x ys]

/-- Sorting commutes with mapping when the key is composed accordingly. -/
theorem sortDescBy_map {α γ β : Type} [LinearOrder β] (key : γ → β)
    (f : α → γ) : ∀ l : List α,
    sortDescBy key (l.map f) = (sortDescBy (fun a => key (f a)) l).map f
  | [] => rfl
  | x :: xs => by
    simp only [List.map_cons, sortDescBy, List.foldr_cons]
    show insertDescBy key (f x) (sortDescBy key (xs.map f)) = _
    rw [sortDescBy_map key f xs]
    exact insertDescBy_map key f x _

/-! Helper lemmas about the counting dict. -/

/-- The counting loop of get_top_phrases_in_category depends on the hits
only through their phrase entries. -/
theorem countPhrases_eq_countOpt (hits : List Payload) :
    countPhrases hits = countOpt (hits.map (fun hit => hit.phrase)) := by
  unfold countPhrases countOpt
  rw [List.foldl_map]

/-- Folding the conditional bump over option-phrases is folding the plain
bump over the truthy phrases. -/
theorem countOpt_eq_foldl_truthy (l : List (Option String)) :
    countOpt l = (l.filterMap (fun op =>
      if op.getD "" ≠ "" then some (op.getD "") else none)).foldl bumpCount [] := by
  unfold countOpt
  generalize ([] : List (String × Nat)) = acc
  induction l generalizing acc with
  | nil => rfl
  | cons op rest ih =>
    simp only [List.foldl_cons, List.filterMap_cons]
    by_cases h : op.getD "" ≠ ""
    · simp only [if_pos h]
      exact ih _
    · simp only [if_neg h]
      exact ih _

/-- The truthy phrases of a hit list are the filterMap over the phrase
entries. -/
theorem truthyPhrases_eq (hits : List Payload) :
    truthyPhrases hits = (hits.map (fun hit => hit.phrase)).filterMap (fun op =>
      if op.getD "" ≠ "" then some (op.getD "") else none) := by
  unfold truthyPhrases
  rw [List.filterMap_map]
  rfl

/-- Membership in firstSeen is membership, with the accumulator
generalized. -/
theorem mem_firstSeen_aux (x : String) :
    ∀ (l acc : List String),
      (x ∈ l.foldl (fun acc p => if p ∈ acc then acc else acc ++ [p]) acc) ↔
        x ∈ acc ∨ x ∈ l := by
  intro l
  induction l with
  | nil => intro acc; simp
  | cons y ys ih =>
    intro acc
    simp only [List.foldl_cons, ih, List.mem_cons]
    by_cases hy : y ∈ acc
    · simp only [hy, if_pos]
      constructor
      · rintro (h | h)
        · exact Or.inl h
        · exact Or.inr (Or.inr h)
      · rintro (h | h | h)
        · exact Or.inl h
        · exact Or.inl (h ▸ hy)
        · exact Or.inr h
    · simp only [hy, if_neg, not_false_iff, List.mem_append, List.mem_singleton]
      tauto

/-- Membership in firstSeen is membership in the original list. -/
theorem mem_firstSeen (x : String) (l : List String) :
    x ∈ firstSeen l ↔ x ∈ l := by
  unfold firstSeen
  rw [mem_firstSeen_aux]
  simp

/-- firstSeen has no duplicates, with the accumulator generalized. -/
theorem nodup_firstSeen_aux :
    ∀ (l acc : List String), acc.Nodup →
      (l.foldl (fun acc p => if p ∈ acc then acc else acc ++ [p]) acc).Nodup := by
  intro l
  induction l with
  | nil => intro acc h; exact h
  | cons y ys ih =>
    intro acc hacc
    simp only [List.foldl_cons]
    by_cases hy : y ∈ acc
    · simp only [hy, if_pos]
      exact ih acc hacc
    · simp only [hy, if_neg, not_false_iff]
      refine ih _ ?_
      rw [List.nodup_append]
      exact ⟨hacc, List.nodup_singleton y, by
        intro a ha hb
        rw [List.mem_singleton] at hb
        exact hy (hb ▸ ha)⟩

/-- firstSeen has no duplicates. -/
theorem nodup_firstSeen (l : List String) : (firstSeen l).Nodup :=
  nodup_firstSeen_aux l [] List.nodup_nil

/-- Appending one element to the input of firstSeen appends it to the
output exactly when it is new. -/
theorem firstSeen_append_singleton (l : List String) (a : String) :
    firstSeen (l ++ [a]) =
      if a ∈ firstSeen l then firstSeen l else firstSeen l ++ [a] := by
  unfold firstSeen
  rw [List.foldl_append]
  rfl

/-- A fold of bumpCount over an appended singleton is a bump of the fold. -/
theorem foldl_bumpCount_append (l : List String) (a : String) :
    (l ++ [a]).foldl bumpCount [] = bumpCount (l.foldl bumpCount []) a := by
  rw [List.foldl_append]
  rfl

/-- The counting dict built by bumping is the list of first-seen keys, each
paired with its total occurrence count. -/
theorem foldl_bumpCount_eq (l : List String) :
    l.foldl bumpCount [] = (firstSeen l).map (fun p => (p, l.count p)) := by
  induction l using List.reverseRecOn with
  | nil => rfl
  | append_singleton l a ih =>
    rw [foldl_bumpCount_append, ih, firstSeen_append_singleton]
    by_cases ha : a ∈ firstSeen l
    · rw [if_pos ha]
      unfold bumpCount
      have hany : (((firstSeen l).map (fun p => (p, l.count p))).any
          (fun kv => kv.1 = a)) = true := by
        rw [List.any_eq_true]
        exact ⟨(a, l.count a), List.mem_map_of_mem _ ha, by simp⟩
      rw [if_pos hany, List.map_map]
      have hfg : ((fun kv : String × Nat => if kv.1 = a then (kv.1, kv.2 + 1) else kv) ∘
          (fun p => (p, l.count p))) = fun p => (p, (l ++ [a]).count p) := by
        funext p
        by_cases hp : p = a
        · subst hp
          simp [List.count_append, List.count_singleton']
        · have : ¬ (a = p) := fun h => hp h.symm
          simp [hp, List.count_append, List.count_singleton', this]
      rw [hfg]
    · rw [if_neg ha]
      unfold bumpCount
      have hany : ¬ ((((firstSeen l).map (fun p => (p, l.count p))).any
          (fun kv => kv.1 = a)) = true) := by
        rw [List.any_eq_true]
        rintro ⟨kv, hkv, hkva⟩
        obtain ⟨p, hp, rfl⟩ := List.mem_map.1 hkv
        have : p = a := of_decide_eq_true hkva
        exact ha (this ▸ hp)
      rw [if_neg hany, List.map_append]
      congr 1
      · apply List.map_congr_left
        intro p hp
        have hpa : ¬ (a = p) := by
          intro h
          exact ha (h ▸ hp)
        simp [List.count_append, List.count_singleton', hpa]
      · have hal : a ∉ l := fun h => ha ((mem_firstSeen a l).2 h)
        simp [List.count_append, List.count_singleton', List.count_eq_zero.2 hal]

/-- The counting loop of get_top_phrases_in_category yields the first-seen
truthy phrases paired with their occurrence counts among the fetched
sample. -/
theorem countPhrases_spec (hits : List Payload) :
    countPhrases hits = (firstSeen (truthyPhrases hits)).map
      (fun p => (p, (truthyPhrases hits).count p)) := by
  rw [countPhrases_eq_countOpt, countOpt_eq_foldl_truthy, ← truthyPhrases_eq,
    foldl_bumpCount_eq]

/-- Every element of a clientSearch result is a stored point passing the
filter, paired with its score. -/
theorem mem_clientSearch {score : List Rat → List Rat → Rat} {qv : List Rat}
    {filt : Point → Bool} {limit : Nat} {pts : List Point} {pr : Point × Rat}
    (h : pr ∈ clientSearch score qv filt limit pts) :
    pr.1 ∈ pts ∧ filt pr.1 = true := by
  unfold clientSearch at h
  have h1 := List.mem_of_mem_take h
  have h2 := (sortDescBy_perm (fun pr : Point × Rat => pr.2) _).mem_iff.mp h1
  obtain ⟨p, hp, hpe⟩ := List.mem_map.1 h2
  have hf := List.mem_filter.1 hp
  rw [← hpe]
  exact hf

/-- The first components of the counting dict are the first-seen truthy
phrases. -/
theorem keys_countPhrases (hits : List Payload) :
    (countPhrases hits).map (fun kv => kv.1) = firstSeen (truthyPhrases hits) := by
  rw [countPhrases_spec, List.map_map]
  have hid : ((fun kv : String × Nat => kv.1) ∘
      (fun p => (p, (truthyPhrases hits).count p))) = id := rfl
  rw [hid, List.map_id]

/-- Every phrase get_top_core returns is a truthy phrase of the fetched
hits. -/
theorem mem_get_top_core {hits : List Payload} {limit : Nat} {ph : String}
    (h : ph ∈ get_top_core hits limit) : ph ∈ truthyPhrases hits := by
  unfold get_top_core at h
  obtain ⟨kv, hkv, hkve⟩ := List.mem_map.1 h
  have h1 := List.mem_of_mem_take hkv
  have h2 := (sortDescBy_perm (fun kv : String × Nat => kv.2) _).mem_iff.mp h1
  rw [countPhrases_spec] at h2
  obtain ⟨p, hp, hpe⟩ := List.mem_map.1 h2
  rw [← hkve, ← hpe]
  exact (mem_firstSeen p _).1 hp

/-- A truthy phrase is the phrase entry of some hit and is non-empty. -/
theorem mem_truthyPhrases {hits : List Payload} {ph : String}
    (h : ph ∈ truthyPhrases hits) :
    ∃ hit ∈ hits, hit.phrase = some ph ∧ ph ≠ "" := by
  unfold truthyPhrases at h
  obtain ⟨hit, hhit, heq⟩ := List.mem_filterMap.1 h
  by_cases hc : hit.phrase.getD "" ≠ ""
  · rw [if_pos hc] at heq
    have hgd := Option.some.inj heq
    refine ⟨hit, hhit, ?_, hgd ▸ hc⟩
    cases hp : hit.phrase with
    | none =>
      rw [hp] at hc
      simp at hc
    | some q =>
      rw [hp] at hgd
      simp only [Option.getD_some] at hgd
      rw [hgd]
  · rw [if_neg hc] at heq
    cases heq

/-- get_top_core never returns a duplicate phrase. -/
theorem nodup_get_top_core (hits : List Payload) (limit : Nat) :
    (get_top_core hits limit).Nodup := by
  unfold get_top_core
  rw [List.map_take]
  apply List.Nodup.sublist (List.take_sublist _ _)
  have hperm := ((sortDescBy_perm (fun kv : String × Nat => kv.2)
    (countPhrases hits)).map (fun kv => kv.1))
  rw [hperm.nodup_iff, keys_countPhrases]
  exact nodup_firstSeen _

/-- The upserted point is present in the result of the upsert. -/
theorem mem_upsertPoint_self (p : Point) (pts : List Point) :
    p ∈ upsertPoint p pts := by
  unfold upsertPoint
  by_cases h : pts.any (fun q => q.id = p.id)
  · rw [if_pos h]
    rw [List.any_eq_true] at h
    obtain ⟨q, hq, hid⟩ := h
    refine List.mem_map.2 ⟨q, hq, ?_⟩
    rw [if_pos (of_decide_eq_true hid)]
  · rw [if_neg h]
    exact List.mem_append_right _ (List.mem_singleton_self p)

/-- Appending to a non-empty string yields a non-empty string. -/
theorem append_ne_empty_left (a b : String) (ha : a ≠ "") : a ++ b ≠ "" := by
  intro h
  apply ha
  have hd := congrArg String.data h
  rw [String.data_append] at hd
  exact String.ext (List.append_eq_nil.1 hd).1

/-- Every hit of get_similar_contexts is the formatting of a stored point
that passes the child filter. -/
theorem mem_get_similar_contexts {clientFails : Bool}
    {score : List Rat → List Rat → Rat} {embedResult : Option (List Rat)}
    {child_id category : String} {context : PhraseContext} {limit : Nat}
    {s : ManagerState} {hit : SimilarHit}
    (h : hit ∈ get_similar_contexts clientFails score embedResult child_id
      category context limit s) :
    ∃ pr : Point × Rat, pr.1 ∈ s.points ∧ pr.1.payload.child_id = child_id ∧
      hit = ⟨pr.1.payload.phrase, pr.1.payload.category,
             pr.1.payload.time_of_day, pr.2⟩ := by
  unfold get_similar_contexts get_similar_contexts_run at h
  cases hemb : embTruthy embedResult with
  | none =>
    rw [hemb] at h
    exact absurd h (List.not_mem_nil hit)
  | some v =>
    rw [hemb] at h
    cases clientFails with
    | true => exact absurd h (List.not_mem_nil hit)
    | false =>
      obtain ⟨pr, hpr, hpre⟩ := List.mem_map.1 h
      have hm := mem_clientSearch hpr
      exact ⟨pr, hm.1, of_decide_eq_true hm.2, hpre.symm⟩

/-! Claim theorems. -/

/-- C4: if the embedding provider signals degradation (returns no vector),
get_similar_contexts returns the empty sequence, does not raise (the
function is total and returns a value), and the client search is never
invoked (the instrumentation flag stays false), for every state, score
function and client condition. -/
theorem degraded_embedding_skips_search (clientFails : Bool)
    (score : List Rat → List Rat → Rat) (child_id category : String)
    (context : PhraseContext) (limit : Nat) (s : ManagerState) :
    get_similar_contexts_run clientFails score none child_id category context
      limit s = ([], false) ∧
    get_similar_contexts clientFails score none child_id category context
      limit s = [] :=
  ⟨rfl, rfl⟩

/-- C6: the context summary string built on the insert path (store_phrase)
and the one built on the retrieval path (get_similar_contexts) are the same
function of the category and the context map, hence byte-identical on every
input. -/
theorem context_str_store_retrieve_equal (category : String)
    (context : PhraseContext) :
    build_context_str_store category context =
      build_context_str_retrieve category context :=
  rfl

/-- C9: an insert during which the embedding provider returns no vector
still stores the record: store_phrase succeeds (returns true, raises
nothing) and the stored point carries the phrase, the child id and the
all-zero sentinel vector of the configured dimension. -/
theorem degraded_insert_still_stored (hsh : String → Nat → Int)
    (now child_id category phrase : String) (context : PhraseContext)
    (s : ManagerState) :
    ∃ s' : ManagerState,
      store_phrase hsh false none now child_id category phrase context s =
        .ok (s', true) ∧
      ∃ p ∈ s'.points, p.payload.child_id = child_id ∧
        p.payload.phrase = some phrase ∧
        p.vector = List.replicate EMBEDDING_DIM 0 := by
  refine ⟨_, rfl, ?_⟩
  exact ⟨_, mem_upsertPoint_self _ _, rfl, rfl, rfl⟩

/-- C3 counterexample: at a concrete input whose underlying storage
operation fails during the insert, store_phrase does not raise a
StoreUnavailable error; it returns normally with the failure flag false
(and the counter side effect retained), refuting the claimed propagation. -/
theorem store_phrase_swallows_failure_counterexample :
    store_phrase hash0 true (some [1]) "t" "u1" "c" "hi" ctx0 emptyState =
      .ok ({ collections := [], points := [], pointCounter := [("u1", 1)] }, false) ∧
    store_phrase hash0 true (some [1]) "t" "u1" "c" "hi" ctx0 emptyState ≠
      .error .storeUnavailable := by
  refine ⟨rfl, ?_⟩
  intro hcontra
  cases hcontra

/-- C3 amended: if the underlying storage operation fails during
store_phrase, the error is caught inside the component and reported to the
caller as a false return value; no exception propagates, and the per-user
counter mutation performed before the failing upsert is retained. -/
theorem store_phrase_failure_returns_false (hsh : String → Nat → Int)
    (embedResult : Option (List Rat)) (now child_id category phrase : String)
    (context : PhraseContext) (s : ManagerState) :
    store_phrase hsh true embedResult now child_id category phrase context s =
      .ok ({ s with pointCounter := (get_next_point_id child_id s.pointCounter).2 },
           false) :=
  rfl

/-- C2 counterexample: at a concrete state whose existing collection has
dimension 512 and dot distance (differing from the requested
EMBEDDING_DIM 768 and cosine), init_qdrant silently succeeds and leaves the
state unchanged rather than raising a SchemaMismatch error. -/
theorem init_qdrant_no_schema_check_counterexample :
    init_qdrant mismatchState = .ok mismatchState ∧
    (⟨512, .dot⟩ : VectorParams) ≠ ⟨EMBEDDING_DIM, .cosine⟩ := by
  refine ⟨rfl, ?_⟩
  decide

/-- C2 amended: init_qdrant is idempotent and never raises: every call
succeeds, a second call is a no-op, and whenever a collection with the
reserved name already exists, the call returns the state unchanged without
inspecting the existing collection's dimension or metric (so a mismatched
schema is silently accepted, never reported). -/
theorem init_qdrant_idempotent_no_mismatch_check (s : ManagerState) :
    (∃ s' : ManagerState, init_qdrant s = .ok s' ∧ init_qdrant s' = .ok s') ∧
    (s.collections.any (fun c => c.1 = QDRANT_COLLECTION) = true →
      init_qdrant s = .ok s) := by
  constructor
  · by_cases h : s.collections.any (fun c => c.1 = QDRANT_COLLECTION) = true
    · refine ⟨s, ?_, ?_⟩ <;> · unfold init_qdrant; rw [if_pos h]
    · refine ⟨{ s with collections :=
          s.collections ++ [(QDRANT_COLLECTION, ⟨EMBEDDING_DIM, .cosine⟩)] }, ?_, ?_⟩
      · unfold init_qdrant
        rw [if_neg h]
      · unfold init_qdrant
        rw [if_pos ?hpos]
        case hpos =>
          simp only [List.any_append]
          simp
  · intro h
    unfold init_qdrant
    rw [if_pos h]

/-- C2 witness: the amended theorem applied at a concrete state with an
existing (mismatched) collection. -/
theorem init_qdrant_idempotent_no_mismatch_check_witness :
    init_qdrant mismatchState = .ok mismatchState :=
  (init_qdrant_idempotent_no_mismatch_check mismatchState).2 (by decide)

/-- C1: user isolation of queries: for every store state containing records
of any mixture of users, every hit of get_similar_contexts for child U and
every phrase of get_top_phrases_in_category for child U comes from a stored
record whose child_id equals U. -/
theorem user_isolation_of_queries (clientFails : Bool)
    (score : List Rat → List Rat → Rat) (embedResult : Option (List Rat))
    (U category : String) (context : PhraseContext) (limit : Nat)
    (s : ManagerState) :
    (∀ hit ∈ get_similar_contexts clientFails score embedResult U category
        context limit s,
      ∃ p ∈ s.points, p.payload.child_id = U ∧ hit.phrase = p.payload.phrase) ∧
    (∀ ph ∈ get_top_phrases_in_category clientFails score U category limit s,
      ∃ p ∈ s.points, p.payload.child_id = U ∧ p.payload.phrase = some ph) := by
  constructor
  · intro hit hmem
    obtain ⟨pr, hp, hcid, hfmt⟩ := mem_get_similar_contexts hmem
    refine ⟨pr.1, hp, hcid, ?_⟩
    rw [hfmt]
  · intro ph hmem
    unfold get_top_phrases_in_category at hmem
    cases clientFails with
    | true => exact absurd hmem (List.not_mem_nil ph)
    | false =>
      have h1 := mem_get_top_core hmem
      obtain ⟨hitp, hhit, hsome, _⟩ := mem_truthyPhrases h1
      obtain ⟨pr, hpr, hpre⟩ := List.mem_map.1 hhit
      have hm := mem_clientSearch hpr
      have hcc := of_decide_eq_true hm.2
      refine ⟨pr.1, hm.1, hcc.1, ?_⟩
      rw [hpre]
      exact hsome

/-- C1 witness: the isolation theorem applied to a concrete mixed-user
state and the concrete hit it returns for child u1. -/
theorem user_isolation_of_queries_witness :
    ∃ p ∈ mixedState.points,
      p.payload.child_id = "u1" ∧ sampleHit.phrase = p.payload.phrase :=
  (user_isolation_of_queries false score0 (some [1]) "u1" "cat" ctx0 3
    mixedState).1 sampleHit (by decide)

/-- C5: frequency-aggregation correctness: the aggregation of
get_top_phrases_in_category equals the spec-side reference (count
exact-string occurrences, sort descending by count with ties broken by
first-seen order among the fetched sample, truncate to the limit); in
particular fetched records carrying phrases a, a, b, a, c in that order
with limit 2 yield the phrases a then b. -/
theorem top_phrases_frequency_correct :
    (∀ (hits : List Payload) (limit : Nat),
        get_top_core hits limit = spec_top_phrases hits limit) ∧
    (∀ hits : List Payload,
        hits.map (fun hit => hit.phrase) = ["a", "a", "b", "a", "c"].map some →
        get_top_core hits 2 = ["a", "b"]) := by
  constructor
  · intro hits limit
    unfold get_top_core spec_top_phrases
    rw [countPhrases_spec]
    rw [sortDescBy_map (fun kv : String × Nat => kv.2)
      (fun p => (p, (truthyPhrases hits).count p)) (firstSeen (truthyPhrases hits))]
    rw [← List.map_take, List.map_map]
    have hid : ((fun kv : String × Nat => kv.1) ∘
        (fun p => (p, (truthyPhrases hits).count p))) = id := rfl
    rw [hid, List.map_id]
  · intro hits hmap
    unfold get_top_core
    rw [countPhrases_eq_countOpt, hmap]
    decide

/-- C5 witness: the concrete sample of property P4. -/
theorem top_phrases_frequency_correct_witness :
    get_top_core sampleHits5 2 = ["a", "b"] :=
  top_phrases_frequency_correct.2 sampleHits5 (by decide)

/-- C10: for every input and store state, get_top_phrases_in_category
returns at most limit phrases, pairwise distinct, and never the empty
string, even when stored records have empty or missing phrase payloads. -/
theorem top_phrases_implicit_bounds (clientFails : Bool)
    (score : List Rat → List Rat → Rat) (child_id category : String)
    (limit : Nat) (s : ManagerState) :
    (get_top_phrases_in_category clientFails score child_id category limit
      s).length ≤ limit ∧
    (get_top_phrases_in_category clientFails score child_id category limit
      s).Nodup ∧
    "" ∉ get_top_phrases_in_category clientFails score child_id category
      limit s := by
  unfold get_top_phrases_in_category
  cases clientFails with
  | true => exact ⟨Nat.zero_le _, List.nodup_nil, List.not_mem_nil _⟩
  | false =>
    refine ⟨?_, nodup_get_top_core _ _, ?_⟩
    · show (get_top_core _ limit).length ≤ limit
      unfold get_top_core
      rw [List.length_map]
      exact List.length_take_le _ _
    · intro hmem
      obtain ⟨hitp, _, _, hne⟩ := mem_truthyPhrases (mem_get_top_core hmem)
      exact hne rfl

/-- Helper: the derived point id lies in the range zero to 2 to the 31. -/
theorem pointPid_range (hsh : String → Nat → Int) (u : String) (n : Nat) :
    0 ≤ pointPid hsh u n ∧ pointPid hsh u n < 2 ^ 31 := by
  unfold pointPid
  exact ⟨Int.emod_nonneg _ (by norm_num), Int.emod_lt_of_pos _ (by norm_num)⟩

/-- Helper: for any tuple-hash function, some two distinct child ids are
assigned the same derived point id at the same sequence number: a function
into 2 to the 31 values cannot separate 2 to the 31 plus one child ids. -/
theorem pointPid_collision (hsh : String → Nat → Int) (n : Nat) :
    ∃ u1 u2 : String, u1 ≠ u2 ∧ pointPid hsh u1 n = pointPid hsh u2 n := by
  have hmaps : ∀ k ∈ Finset.range (2 ^ 31 + 1),
      (pointPid hsh (String.mk (List.replicate k 'a')) n).toNat ∈
        Finset.range (2 ^ 31) := by
    intro k _
    rw [Finset.mem_range]
    have hr := pointPid_range hsh (String.mk (List.replicate k 'a')) n
    rw [Int.toNat_lt hr.1]
    exact_mod_cast hr.2
  have hcard : (Finset.range (2 ^ 31)).card < (Finset.range (2 ^ 31 + 1)).card := by
    simp [Finset.card_range]
  obtain ⟨x, hx, y, hy, hxy, hfeq⟩ :=
    Finset.exists_ne_map_eq_of_card_lt_of_maps_to hcard hmaps
  refine ⟨String.mk (List.replicate x 'a'), String.mk (List.replicate y 'a'), ?_, ?_⟩
  · intro heq
    apply hxy
    have hdata : List.replicate x 'a' = List.replicate y 'a' :=
      congrArg String.data heq
    have hlen := congrArg List.length hdata
    simpa using hlen
  · have h1 := (pointPid_range hsh (String.mk (List.replicate x 'a')) n).1
    have h2 := (pointPid_range hsh (String.mk (List.replicate y 'a')) n).1
    rw [← Int.toNat_of_nonneg h1, ← Int.toNat_of_nonneg h2, hfeq]

/-- C7 counterexample: no tuple-hash function can make the derived point id
(hash of the pair, reduced modulo 2 to the 31) distinguish every pair of
distinct users: the claimed guarantee that records of distinct users always
get different ids is unachievable by this derivation. -/
theorem point_id_cross_user_collision_counterexample :
    ¬ ∃ hsh : String → Nat → Int, ∀ (u1 u2 : String) (s1 s2 : Nat),
        u1 ≠ u2 → pointPid hsh u1 s1 ≠ pointPid hsh u2 s2 := by
  rintro ⟨hsh, hdist⟩
  obtain ⟨u1, u2, hne, heq⟩ := pointPid_collision hsh 1
  exact hdist u1 u2 1 1 hne heq

/-- C7 amended: the stored point id is a deterministic function of
(child_id, per-user sequence) given the process's tuple-hash, and it always
lies in the range zero to 2 to the 31; but for every possible tuple-hash
some two distinct users share a derived id, so the derivation cannot
guarantee that an insert for one user never overwrites a record of a
different user. -/
theorem point_id_range_and_cross_user_collision (hsh : String → Nat → Int)
    (u : String) (n : Nat) :
    (0 ≤ pointPid hsh u n ∧ pointPid hsh u n < 2 ^ 31) ∧
    ∃ u1 u2 : String, u1 ≠ u2 ∧ pointPid hsh u1 n = pointPid hsh u2 n :=
  ⟨pointPid_range hsh u n, pointPid_collision hsh n⟩

/-- C8 counterexample: at a concrete state holding the same phrase twice
for child u1, the similar-situations sentence of
get_personalization_context lists the phrase twice: duplicates are not
removed while the claim requires deduplication preserving first
occurrence. -/
theorem personalization_no_dedup_counterexample :
    get_personalization_context false score0 (some [1]) "u1" "cat" ctx0
      mixedState =
      "In similar situations, this child has said: hi, hi. This child frequently uses these phrases in this category: hi. " ∧
    phrases_from_similar (get_similar_contexts false score0 (some [1]) "u1"
      "cat" ctx0 3 mixedState) = ["hi", "hi"] ∧
    ¬ (["hi", "hi"] : List String).Nodup := by
  refine ⟨?_, ?_, ?_⟩ <;> decide

/-- C8 amended: whenever similarity matches with truthy phrases exist, the
similar-situations sentence lists the matched phrases exactly in the
retriever's score-descending hit order, filtering out missing and empty
phrases but keeping duplicates (no deduplication is performed). -/
theorem personalization_lists_similar_phrases_in_order (clientFails : Bool)
    (score : List Rat → List Rat → Rat) (embedResult : Option (List Rat))
    (child_id category : String) (context : PhraseContext) (s : ManagerState)
    (hne : phrases_from_similar (get_similar_contexts clientFails score
      embedResult child_id category context 3 s) ≠ []) :
    ∃ rest : String,
      get_personalization_context clientFails score embedResult child_id
        category context s =
      "In similar situations, this child has said: " ++
        String.intercalate ", " (phrases_from_similar (get_similar_contexts
          clientFails score embedResult child_id category context 3 s)) ++
        ". " ++ rest := by
  have hsim_ne : get_similar_contexts clientFails score embedResult child_id
      category context 3 s ≠ [] := by
    intro h0
    apply hne
    rw [h0]
    rfl
  have hsimE : ¬ ((get_similar_contexts clientFails score embedResult
      child_id category context 3 s).isEmpty = true) :=
    fun h => hsim_ne (List.isEmpty_iff.1 h)
  have hphrE : ¬ ((phrases_from_similar (get_similar_contexts clientFails
      score embedResult child_id category context 3 s)).isEmpty = true) :=
    fun h => hne (List.isEmpty_iff.1 h)
  unfold get_personalization_context
  simp only [if_neg hsimE, if_neg hphrE]
  have hS1ne : "In similar situations, this child has said: " ++
      String.intercalate ", " (phrases_from_similar (get_similar_contexts
        clientFails score embedResult child_id category context 3 s)) ++
      ". " ≠ "" :=
    append_ne_empty_left _ _ (append_ne_empty_left _ _ (by decide))
  by_cases htop : (get_top_phrases_in_category clientFails score child_id
      category 3 s).isEmpty = true
  · rw [if_pos htop, if_neg hS1ne]
    exact ⟨"", (String.append_empty _).symm⟩
  · rw [if_neg htop, if_neg (append_ne_empty_left _ _
      (append_ne_empty_left _ _ (append_ne_empty_left _ _ hS1ne)))]
    refine ⟨"This child frequently uses these phrases in this category: " ++
      String.intercalate ", " (get_top_phrases_in_category clientFails score
        child_id category 3 s) ++ ". ", ?_⟩
    simp only [String.append_assoc]

/-- C8 witness: the amended theorem applied at the concrete duplicated
state. -/
theorem personalization_lists_similar_phrases_in_order_witness :
    ∃ rest : String,
      get_personalization_context false score0 (some [1]) "u1" "cat" ctx0
        mixedState =
      "In similar situations, this child has said: " ++
        String.intercalate ", " (phrases_from_similar (get_similar_contexts
          false score0 (some [1]) "u1" "cat" ctx0 3 mixedState)) ++
        ". " ++ rest :=
  personalization_lists_similar_phrases_in_order false score0 (some [1])
    "u1" "cat" ctx0 mixedState (by decide)

end EchoMind
